import Mathlib

/-!
Shallow embedding of the Sinki-Backups backup pipeline (`src/main.py`),
used to check the natural-language specification against the code.

Files are modelled as lists of byte values (`List Nat`); the filesystem,
where needed, as a lookup function.  Third-party primitives that the code
delegates to (hashlib digests, pycryptodome AES-GCM, the `filesplit`
library) are not part of the repository; they are modelled from the
spec's description of them, as concrete executable functions, and each
such definition is marked `Modelled from the spec:` in its doc comment.
-/

namespace SinkiBackups

/-! Chunked traversal of a byte list.  `src/main.py` reads files in
fixed-size chunks (`f.read(4096)` in `calculate_hash` and
`calculate_chunked_hash`), and the Split Stage partitions files into
fixed-size chunks; `chunksBy n l` splits `l` into runs of `n + 1`
elements (all runs except possibly the last have length exactly
`n + 1`). -/

/-- Fuel-driven worker for `chunksBy`; the fuel is an upper bound on the
number of chunks and is instantiated with the list length. -/
def chunksByAux (n : Nat) : Nat → List α → List (List α)
  | 0, _ => []
  | _ + 1, [] => []
  | fuel + 1, x :: xs => (x :: xs.take n) :: chunksByAux n fuel (xs.drop n)

/-- Split a list into consecutive chunks of size `n + 1` (the last chunk
may be shorter).  Mirrors the chunked file reads and the file splitter of
`src/main.py`. -/
def chunksBy (n : Nat) (l : List α) : List (List α) :=
  chunksByAux n l.length l

theorem chunksByAux_flatten (n : Nat) :
    ∀ (fuel : Nat) (l : List α), l.length ≤ fuel →
      (chunksByAux n fuel l).flatten = l := by
  intro fuel
  induction fuel with
  | zero =>
    intro l hl
    have : l = [] := List.eq_nil_of_length_eq_zero (Nat.le_zero.mp hl)
    simp [this, chunksByAux]
  | succ fuel ih =>
    intro l hl
    match l with
    | [] => simp [chunksByAux]
    | x :: xs =>
      have hdrop : (xs.drop n).length ≤ fuel := by
        simp only [List.length_drop]
        have := Nat.succ_le_succ_iff.mp hl
        omega
      simp [chunksByAux, ih (xs.drop n) hdrop, List.take_append_drop]

/-- Concatenating the chunks in order reproduces the original list. -/
theorem chunksBy_flatten (n : Nat) (l : List α) :
    (chunksBy n l).flatten = l :=
  chunksByAux_flatten n l.length l (Nat.le_refl _)

theorem chunksByAux_eq_nil_iff (n : Nat) :
    ∀ (fuel : Nat) (l : List α), l.length ≤ fuel →
      (chunksByAux n fuel l = [] ↔ l = []) := by
  intro fuel l hl
  match fuel, l with
  | 0, l =>
    have : l = [] := List.eq_nil_of_length_eq_zero (Nat.le_zero.mp hl)
    simp [this, chunksByAux]
  | fuel + 1, [] => simp [chunksByAux]
  | fuel + 1, x :: xs => simp [chunksByAux]

/-- Every chunk except possibly the last has length exactly `n + 1`. -/
theorem chunksByAux_dropLast_length (n : Nat) :
    ∀ (fuel : Nat) (l : List α), l.length ≤ fuel →
      ∀ c ∈ (chunksByAux n fuel l).dropLast, c.length = n + 1 := by
  intro fuel
  induction fuel with
  | zero => intro l _ c hc; simp [chunksByAux] at hc
  | succ fuel ih =>
    intro l hl c hc
    match l with
    | [] => simp [chunksByAux] at hc
    | x :: xs =>
      have hdrop : (xs.drop n).length ≤ fuel := by
        simp only [List.length_drop]
        have := Nat.succ_le_succ_iff.mp hl
        omega
      simp only [chunksByAux] at hc
      by_cases hrest : chunksByAux n fuel (xs.drop n) = ([] : List (List α))
      · simp [hrest] at hc
      · rw [List.dropLast_cons_of_ne_nil hrest] at hc
        rcases List.mem_cons.mp hc with h | h
        · have hne : xs.drop n ≠ [] :=
            fun h0 => hrest (((chunksByAux_eq_nil_iff n fuel (xs.drop n) hdrop).mpr h0))
          have hlen : n ≤ xs.length := by
            by_contra hlt
            exact hne (List.drop_eq_nil_of_le (Nat.le_of_lt (Nat.lt_of_not_le hlt)))
          subst h
          simp [List.length_take, Nat.min_eq_left hlen]
        · exact ih (xs.drop n) hdrop c h

theorem chunksBy_dropLast_length (n : Nat) (l : List α) :
    ∀ c ∈ (chunksBy n l).dropLast, c.length = n + 1 :=
  chunksByAux_dropLast_length n l.length l (Nat.le_refl _)

/-! Digest model.  `src/main.py` delegates hashing to `hashlib`
(`hashlib.new(algorithm)`, `update`, `hexdigest`).  Modelled from the
spec: a content hash is "a digest of a file's bytes used here for
integrity comparison" — i.e. a deterministic function of the algorithm
name and the byte sequence.  The internal mixing function below is an
arbitrary concrete choice standing in for the real digest arithmetic;
the development only relies on hashing being a deterministic fold over
the bytes, which is exactly the `update`/`hexdigest` interface the code
uses. -/

/-- Modelled from the spec: one `update` step of a hashlib digest state
with one byte. -/
def hashMix (s b : Nat) : Nat := (s * 131 + b + 17) % (2 ^ 64)

/-- Modelled from the spec: the initial digest state of
`hashlib.new(algorithm)`; it depends on the algorithm name. -/
def hashInit (alg : String) : Nat :=
  alg.data.foldl (fun s c => hashMix s c.toNat) 7

/-- Feeding one chunk of bytes into the digest state
(`hash_func.update(chunk)`). -/
def hashUpdate (s : Nat) (chunk : List Nat) : Nat :=
  chunk.foldl hashMix s

/-- Modelled from the spec: `hexdigest` renders the final digest state;
digest values are kept as naturals. -/
def hexDigestOf (s : Nat) : Nat := s

/-- The digest of a whole byte string under algorithm `alg`. -/
def digestBytes (alg : String) (bs : List Nat) : Nat :=
  hexDigestOf (bs.foldl hashMix (hashInit alg))

/-- Folding the digest over the 4096-byte chunks of a file equals
folding it over the whole byte string: chunked reading does not change
the hash. -/
theorem foldl_hashUpdate_chunksBy (n : Nat) (s : Nat) (bs : List Nat) :
    (chunksBy n bs).foldl hashUpdate s = bs.foldl hashMix s := by
  conv_rhs => rw [← chunksBy_flatten n bs]
  rw [List.foldl_flatten]
  rfl

/-! The `calculate_hash` operation (`src/main.py:101-116`).  It wraps
the whole body in `try/except`; the handler logs and then evaluates
`hash_func.hexdigest()`.  When the failure happened before
`hash_func = hashlib.new(algorithm)` was executed (i.e. the unsupported
algorithm `ValueError`), the handler itself raises `UnboundLocalError`;
otherwise the handler returns the digest of whatever bytes were read
before the failure. -/

/-- Python exception kinds relevant to the embedded fragment. -/
inductive PyError where
  | valueError
  | ioError
  | unboundLocalError
  deriving DecidableEq, Repr

/-- A filesystem for reading: `none` means the path cannot be opened
(e.g. the file is missing); `some (bs, true)` means the file is read to
the end yielding bytes `bs`; `some (bs, false)` means reading fails
after yielding the bytes `bs`. -/
def FileSys : Type := String → Option (List Nat × Bool)

/-- Modelled from the spec: the set of hash algorithm identifiers
accepted by the hash backend (`hashlib.algorithms_available`); the
guaranteed algorithm names. -/
def algorithms_available : List String :=
  ["md5", "sha1", "sha224", "sha256", "sha384", "sha512",
   "blake2b", "blake2s", "sha3_224", "sha3_256", "sha3_384",
   "sha3_512", "shake_128", "shake_256"]

/-- The `try` body of `calculate_hash`: on failure the error carries the
digest state at the point of failure when `hash_func` was already bound,
and `none` when the failure occurred before `hash_func` was assigned. -/
def calculate_hash_body (fs : FileSys) (file_path algorithm : String) :
    Except (PyError × Option Nat) Nat :=
  if algorithm ∈ algorithms_available then
    -- hash_func = hashlib.new(algorithm)
    let st := hashInit algorithm
    match fs file_path with
    | none => .error (.ioError, some st)
    | some (bs, true) =>
        .ok (hexDigestOf ((chunksBy 4095 bs).foldl hashUpdate st))
    | some (bs, false) =>
        .error (.ioError, some ((chunksBy 4095 bs).foldl hashUpdate st))
  else
    -- raise ValueError(f"Unsupported hash algorithm: ...")
    .error (.valueError, none)

/-- The full `calculate_hash` with its `except` handler: the handler
runs `calculate_hash = hash_func.hexdigest()`, which returns the partial
digest when `hash_func` is bound and raises `UnboundLocalError` when it
is not. -/
def calculate_hash (fs : FileSys) (file_path algorithm : String) :
    Except PyError Nat :=
  match calculate_hash_body fs file_path algorithm with
  | .ok d => .ok d
  | .error (_, some st) => .ok (hexDigestOf st)
  | .error (_, none) => .error .unboundLocalError

/-! FileRecord and the Change Detector (`get_file_info`,
`remove_last_touch_time`, `compare_files`, `src/main.py:118-226`). -/

/-- One tracked file record, as stored in `hazbackup.manifest` by
`get_file_info` (fields `Hash`, `RelativePath`, `LastModificationTime`,
`Length`, `LastTouchTime`).  Digests are kept as naturals. -/
structure FileRecord where
  Hash : Nat
  RelativePath : String
  LastModificationTime : String
  Length : Nat
  LastTouchTime : String
  deriving DecidableEq, Repr

/-- Lookup in the manifest dictionary.  `compare_files` builds
`manifest_data = \x7bfi['RelativePath']: fi for fi in manifest_data_list\x7d`,
so when several records share a relative path the later one wins; the
lookup therefore finds the last matching record. -/
def manifestLookup (manifest : List FileRecord) (rp : String) :
    Option FileRecord :=
  manifest.reverse.find? (fun r => r.RelativePath == rp)

/-- The diff computation of `compare_files` (`src/main.py:202-215`): a
current record is kept when its relative path is absent from the
manifest, or present with a differing `Hash` or `Length` (the
`LastTouchTime` field is dropped before comparison and the comparison
reads only `Hash` and `Length`). -/
def diff_files (manifest source_files_info : List FileRecord) :
    List FileRecord :=
  source_files_info.filter (fun fi =>
    match manifestLookup manifest fi.RelativePath with
    | some mfi => mfi.Hash != fi.Hash || mfi.Length != fi.Length
    | none => true)

/-! The initial-backup path and the per-job driver
(`initial_backup`, `compare_files`, `src/main.py:166-281`). -/

/-- The per-file loop of `initial_backup` (`src/main.py:254-281`): for
each file, its record is appended to the manifest (read, append,
rewrite) and `add_backup` is invoked on the file.  The first component
of the result is the final manifest contents, the second the list of
files run through the transform pipeline, in order. -/
def initial_backup :
    List FileRecord → List FileRecord → List FileRecord × List FileRecord
  | [], manifest => (manifest, [])
  | fi :: rest, manifest =>
      let step := initial_backup rest (manifest ++ [fi])
      (step.1, fi :: step.2)

theorem initial_backup_eq (source : List FileRecord) :
    ∀ manifest, initial_backup source manifest
      = (manifest ++ source, source) := by
  induction source with
  | nil => intro manifest; simp [initial_backup]
  | cons fi rest ih =>
    intro manifest
    simp [initial_backup, ih (manifest ++ [fi])]

/-- One job of `compare_files` (`src/main.py:176-222`): when the
manifest file exists, the diff set is computed and logged and nothing
else happens; when opening it raises `FileNotFoundError`,
`initial_backup` runs.  Result: `(diff set computed, files run through
the pipeline, manifest contents afterwards)`. -/
def compare_files_job (manifestExists : Bool)
    (manifest source_files_info : List FileRecord) :
    List FileRecord × List FileRecord × List FileRecord :=
  if manifestExists then
    (diff_files manifest source_files_info, [], manifest)
  else
    let r := initial_backup source_files_info []
    ([], r.2, r.1)

/-! Copy-Verify Stage and pipeline orchestration
(`copy_current_file`, `add_backup`, `src/main.py:290-347`). -/

/-- Outcome of the copy retry loop: number of copy attempts made and
whether a hash verification succeeded. -/
structure CopyResult where
  attemptsMade : Nat
  verified : Bool
  deriving DecidableEq, Repr

/-- The `for attempt in range(4)` loop of `copy_current_file`
(`src/main.py:334-344`): copy, recompute the destination hash, break on
match.  `copiedHash i` is the destination hash produced by copy attempt
`i`. -/
def copyLoop (file_hash : Nat) (copiedHash : Nat → Nat) :
    Nat → Nat → CopyResult
  | 0, made => ⟨made, false⟩
  | fuel + 1, made =>
      if copiedHash made = file_hash then ⟨made + 1, true⟩
      else copyLoop file_hash copiedHash fuel (made + 1)

/-- `copy_current_file` (`src/main.py:331-347`): runs the 4-attempt
loop.  Whatever happens — including all four attempts failing hash
verification — the function returns normally (its `except` clause also
only logs), so no error reaches the caller. -/
def copy_current_file (file_hash : Nat) (copiedHash : Nat → Nat) :
    CopyResult :=
  copyLoop file_hash copiedHash 4 0

/-- The four pipeline stages orchestrated by `add_backup`. -/
inductive Stage where
  | copy
  | compress
  | split
  | encrypt
  deriving DecidableEq, Repr

/-- `add_backup` (`src/main.py:290-328`): returns early when the
destination file already exists; otherwise it runs copy, compress,
split and the encryption preparation unconditionally in sequence — no
check of the copy stage's outcome guards the compression stage.
Result: the stage trace and the copy stage's result. -/
def add_backup (dst_exists : Bool) (file_hash : Nat)
    (copiedHash : Nat → Nat) : List Stage × Option CopyResult :=
  if dst_exists then ([], none)
  else ([.copy, .compress, .split, .encrypt],
        some (copy_current_file file_hash copiedHash))

/-! Compress-Verify Stage (`compress_current_file`,
`src/main.py:370-427`). -/

/-- One gibibyte, the decompression-verification threshold. -/
def GiB : Nat := 1024 * 1024 * 1024

/-- Extensions excluded from compression
(`file_not_compress`, `src/main.py:382-387`). -/
def file_not_compress : List String :=
  ["jpeg", "jpg", "gif", "png", "bmp", "tiff", "tif", "avi",
   "mp4", "avi", "mpeg", "mp3", "wav", "flac", "mkv", "pdf",
   "zip", "rar", "7z", "gz", "tar", "iso"]

/-- Outcome of the compress stage: whether the working file is now the
`.xz` artifact, whether the plaintext original was removed, and whether
a decompress-and-compare verification was performed / succeeded. -/
structure CompressResult where
  resultIsXz : Bool
  originalRemoved : Bool
  verificationPerformed : Bool
  verificationSucceeded : Bool
  deriving DecidableEq, Repr

/-- The `for attempt in range(4)` loop of `compress_current_file`
(`src/main.py:389-424`).  `compressOk i` says compression attempt `i`
raises no exception; `verifyOk i` says decompression raises no
exception; `decompressedHash i` is the chunked hash of the decompressed
data at attempt `i`.  For files over 1 GiB the original is removed only
inside the branch where the decompressed hash matched; for smaller
files the original is removed and the loop exits with no verification
(`"File size is less than 1GB. Skipping decompression verification."`).
The `performed` accumulator records whether any hash comparison has
taken place. -/
def compressLoop (file_hash file_length : Nat)
    (compressOk verifyOk : Nat → Bool) (decompressedHash : Nat → Nat) :
    Nat → Nat → Bool → CompressResult
  | 0, _, performed => ⟨false, false, performed, false⟩
  | fuel + 1, attempt, performed =>
      if compressOk attempt then
        if GiB < file_length then
          if verifyOk attempt then
            if decompressedHash attempt = file_hash then
              ⟨true, true, true, true⟩
            else
              compressLoop file_hash file_length compressOk verifyOk
                decompressedHash fuel (attempt + 1) true
          else
            compressLoop file_hash file_length compressOk verifyOk
              decompressedHash fuel (attempt + 1) performed
        else
          ⟨true, true, false, false⟩
      else
        compressLoop file_hash file_length compressOk verifyOk
          decompressedHash fuel (attempt + 1) performed

/-- `compress_current_file` (`src/main.py:370-427`): files of at least
120 bytes whose extension is compressible (or `"."`) enter the
4-attempt compression loop; all others skip the stage. -/
def compress_current_file (file_ext : String)
    (file_hash file_length : Nat) (compressOk verifyOk : Nat → Bool)
    (decompressedHash : Nat → Nat) : CompressResult :=
  if 120 ≤ file_length ∧
      (file_ext ∉ file_not_compress ∨ file_ext = ".") then
    compressLoop file_hash file_length compressOk verifyOk
      decompressedHash 4 0 false
  else
    ⟨false, false, false, false⟩

/-! Split Stage (`split_current_file`, `src/main.py:429-474`). -/

/-- The split threshold, 4 GiB (`4 * 1024 * 1024 * 1024`). -/
def splitThreshold : Nat := 4 * 1024 * 1024 * 1024

/-- Modelled from the spec: the chunk file name of the `i`-th chunk
produced by the `filesplit` library, as listed in the `.man` manifest in
order. -/
def chunkName (base : String) (i : Nat) : String :=
  base ++ "_" ++ toString (i + 1)

/-- Filesystem effects of the split stage, in program order. -/
inductive SplitEvent where
  | writeChunk (name : String) (bytes : List Nat)
  | writeManifest (lines : List String)
  | deleteOriginal
  deriving DecidableEq, Repr

/-- Modelled from the spec: `Split(...).bysize(size)` of the `filesplit`
library partitions the file bytes into sequential chunks of exactly
`size` bytes (the last chunk may be shorter) and produces the manifest
lines: a header line first, then the chunk file names in order. -/
def bysize (name : String) (content : List Nat) (size : Nat) :
    List (List Nat) × List String :=
  let chunks := chunksBy (size - 1) content
  (chunks,
   "filename,filesize,header" ::
     (List.range chunks.length).map (chunkName name))

/-- The chunk-write events of the split, in order: chunk `i` of the
partition is written under its chunk name. -/
def chunkWriteEvents (name : String) : Nat → List (List Nat) → List SplitEvent
  | _, [] => []
  | i, c :: cs =>
      SplitEvent.writeChunk (chunkName name i) c ::
        chunkWriteEvents name (i + 1) cs

/-- `split_current_file` (`src/main.py:429-474`): when the file exceeds
4 GiB, split it into 4 GiB chunks, write the `<name>.man` manifest, and
only then delete the unsplit original, returning the manifest path;
otherwise do nothing and pass the original path through. -/
def split_current_file (name : String) (content : List Nat) :
    String × List SplitEvent :=
  if splitThreshold < content.length then
    (name ++ ".man",
     chunkWriteEvents name 0 (bysize name content splitThreshold).1
       ++ [SplitEvent.writeManifest (bysize name content splitThreshold).2,
           SplitEvent.deleteOriginal])
  else
    (name, [])

/-! Cipher Stage (`encrypt_current_file`, `decrypt_current_file`,
`src/main.py:541-656`).  The AES-GCM primitive and PBKDF2 come from
third-party libraries; they are modelled from the spec: AEAD
"produces ciphertext plus a tag that detects any tampering", CTR
encryption XORs a key/nonce-derived keystream, and the KDF is a
deterministic function of `(password, salt, iterations)`. -/

/-- Little-endian base-256 recomposition of a byte list. -/
def ofBytes : List Nat → Nat
  | [] => 0
  | b :: bs => b + 256 * ofBytes bs

/-- Fuel-driven little-endian base-256 decomposition of a natural; the
fuel is instantiated with the number itself, an upper bound on the
number of digits. -/
def natToBytesAux : Nat → Nat → List Nat
  | 0, _ => []
  | _ + 1, 0 => []
  | fuel + 1, n => n % 256 :: natToBytesAux fuel (n / 256)

/-- Base-256 byte rendering of a natural. -/
def natToBytes (n : Nat) : List Nat := natToBytesAux n n

theorem ofBytes_natToBytesAux :
    ∀ (fuel n : Nat), n ≤ fuel → ofBytes (natToBytesAux fuel n) = n := by
  intro fuel
  induction fuel with
  | zero =>
    intro n hn
    have : n = 0 := Nat.le_zero.mp hn
    simp [this, natToBytesAux, ofBytes]
  | succ fuel ih =>
    intro n hn
    match n with
    | 0 => simp [natToBytesAux, ofBytes]
    | m + 1 =>
      have hdiv : (m + 1) / 256 ≤ fuel := by
        have h1 : (m + 1) / 256 < m + 1 :=
          Nat.div_lt_self (Nat.succ_pos m) (by omega)
        omega
      show ofBytes ((m + 1) % 256 :: natToBytesAux fuel ((m + 1) / 256))
          = m + 1
      rw [ofBytes, ih _ hdiv, Nat.mod_add_div]

theorem natToBytes_injective : Function.Injective natToBytes := by
  intro a b h
  have ha := ofBytes_natToBytesAux a a (Nat.le_refl a)
  have hb := ofBytes_natToBytesAux b b (Nat.le_refl b)
  rw [← ha, ← hb]
  exact congrArg ofBytes h

/-- An injective encoding of a byte list into a natural, built from the
Cantor pairing function. -/
def encodeList : List Nat → Nat
  | [] => 0
  | b :: bs => Nat.pair b (encodeList bs) + 1

theorem encodeList_injective : Function.Injective encodeList := by
  intro xs
  induction xs with
  | nil =>
    intro ys h
    cases ys with
    | nil => rfl
    | cons y ys => simp [encodeList] at h
  | cons x xs ih =>
    intro ys h
    cases ys with
    | nil => simp [encodeList] at h
    | cons y ys =>
      simp only [encodeList, Nat.add_right_cancel_iff] at h
      obtain ⟨h1, h2⟩ := Nat.pair_eq_pair.mp h
      rw [h1, ih h2]

/-- Modelled from the spec: byte `i` of the AES-CTR keystream for a
given key and nonce — an arbitrary fixed mixing function standing in
for the AES block computation; the development relies only on the
keystream being a deterministic function of `(key, nonce, i)`. -/
def keystreamByte (key nonce i : Nat) : Nat :=
  (key * 2654435761 + nonce * 40503 + i * 97 + 1) % 256

/-- Modelled from the spec: the CTR-mode byte transform of AES-GCM —
XOR each byte with its keystream byte, starting at index `i`. -/
def ctrCrypt (key nonce : Nat) : Nat → List Nat → List Nat
  | _, [] => []
  | i, b :: bs =>
      (b ^^^ keystreamByte key nonce i) :: ctrCrypt key nonce (i + 1) bs

theorem ctrCrypt_involution (key nonce : Nat) :
    ∀ (i : Nat) (bs : List Nat),
      ctrCrypt key nonce i (ctrCrypt key nonce i bs) = bs := by
  intro i bs
  induction bs generalizing i with
  | nil => rfl
  | cons b bs ih =>
    simp only [ctrCrypt, Nat.xor_cancel_right, List.cons.injEq, true_and]
    exact ih (i + 1)

/-- Modelled from the spec: the GCM authentication tag over
`(key, nonce, associatedData, ciphertext)`.  Per the spec's glossary the
tag "detects any tampering", so it is modelled as an injective encoding
of its inputs, rendered as bytes. -/
def gcmTag (key nonce : Nat) (aad ct : List Nat) : List Nat :=
  natToBytes
    (Nat.pair key
      (Nat.pair nonce (Nat.pair (encodeList aad) (encodeList ct))) + 1)

theorem gcmTag_ct_injective (key nonce : Nat) (aad ct ct' : List Nat)
    (h : gcmTag key nonce aad ct' = gcmTag key nonce aad ct) :
    ct' = ct := by
  have h1 := natToBytes_injective h
  have h2 := Nat.add_right_cancel h1
  have h3 := (Nat.pair_eq_pair.mp h2).2
  have h4 := (Nat.pair_eq_pair.mp h3).2
  have h5 := (Nat.pair_eq_pair.mp h4).2
  exact encodeList_injective h5

/-- Modelled from the spec: AES-GCM `encrypt_and_digest` — CTR-encrypt
the plaintext and compute the tag over the associated data and the
ciphertext. -/
def gcmEncryptDigest (key nonce : Nat) (aad plaintext : List Nat) :
    List Nat × List Nat :=
  let ct := ctrCrypt key nonce 0 plaintext
  (ct, gcmTag key nonce aad ct)

/-- Modelled from the spec: AES-GCM `decrypt_and_verify` — recompute
the tag over the associated data and the ciphertext, fail (raise
`ValueError`, i.e. authentication failure) unless it matches the stored
tag, and only then CTR-decrypt. -/
def gcmDecryptVerify (key nonce : Nat) (aad ct tag : List Nat) :
    Option (List Nat) :=
  if gcmTag key nonce aad ct = tag then some (ctrCrypt key nonce 0 ct)
  else none

/-- Modelled from the spec: `hashlib.pbkdf2_hmac('sha256', password,
salt, iterations, dklen=16)` — a deterministic key derivation from
`(password, salt, iterations)`. -/
def pbkdf2_hmac (password salt iterations : Nat) : Nat :=
  Nat.pair password (Nat.pair salt iterations)

/-- The EncryptionEnvelope persisted as `<file>.enc`
(`src/main.py:570-579`): fields `nonce`, `header`, `ciphertext`, `tag`,
`salt`, `iterations`. -/
structure Envelope where
  nonce : Nat
  header : List Nat
  ciphertext : List Nat
  tag : List Nat
  salt : Nat
  iterations : Nat
  deriving DecidableEq, Repr

/-- The fixed associated-data label `b"header"` used by
`encrypt_current_file` and `decrypt_current_file`. -/
def headerBytes : List Nat := [104, 101, 97, 100, 101, 114]

/-- The hardcoded password `'ThisIsASecretKey'.encode('utf-8')`
(`src/main.py:553` and `:639`), as a natural via its byte encoding. -/
def thePassword : Nat :=
  encodeList
    [84, 104, 105, 115, 73, 115, 65, 83, 101, 99, 114, 101, 116, 75,
     101, 121]

/-- The cipher core of `encrypt_current_file` (`src/main.py:541-579`),
with the password, the random salt and nonce, and the calibrated
iteration count as parameters (the source passes the module-level
password constant): derive the key by PBKDF2, authenticated-encrypt the
plaintext with associated data `b"header"`, and assemble the
self-describing envelope written to `<file>.enc`. -/
def encrypt_current_file (password : Nat) (plaintext : List Nat)
    (salt nonce iterations : Nat) : Envelope :=
  let key := pbkdf2_hmac password salt iterations
  let r := gcmEncryptDigest key nonce headerBytes plaintext
  { nonce := nonce, header := headerBytes, ciphertext := r.1,
    tag := r.2, salt := salt, iterations := iterations }

/-- `decrypt_current_file` (`src/main.py:623-656`), with the password
as a parameter (the source passes the same module-level constant): read
the envelope fields, derive the key from the stored salt and iteration
count, authenticated-decrypt, and only on success write the `.dec`
output file.  The second component lists the output files written —
`decrypt_and_verify` raises before the output file is opened, so on
authentication failure nothing is written. -/
def decrypt_current_file (password : Nat) (e : Envelope) :
    Option (List Nat) × List (List Nat) :=
  match gcmDecryptVerify (pbkdf2_hmac password e.salt e.iterations)
      e.nonce e.header e.ciphertext e.tag with
  | some pt => (some pt, [pt])
  | none => (none, [])

/-! KDF Calibrator (`get_optimal_iterations`, `src/main.py:510-538`). -/

/-- Python's `int()` truncation toward zero on a rational. -/
def pyInt (q : ℚ) : ℤ := if q < 0 then ⌈q⌉ else ⌊q⌋

/-- The measurement loop of `get_optimal_iterations`
(`src/main.py:522-529`): measure the elapsed time for the trial
iteration count, doubling the count while the measured duration is
zero.  `measure ti` is the measured wall-clock duration in milliseconds
of `ti` PBKDF2 trial iterations; the fuel bounds the doubling loop
(`none` models a loop that never observes a non-zero duration). -/
def calibrateLoop (measure : Nat → ℚ) : Nat → Nat → Option (Nat × ℚ)
  | 0, _ => none
  | fuel + 1, test_iterations =>
      let elapsed := measure test_iterations
      if elapsed = 0 then calibrateLoop measure fuel (test_iterations * 2)
      else some (test_iterations, elapsed)

/-- `get_optimal_iterations` (`src/main.py:510-538`): when the
persisted calibration file exists its stored value is returned
unchanged; otherwise the duration of 1000 trial iterations is measured
(doubling on a zero reading), the optimal count
`int((target_time_ms / elapsed_time_ms) * test_iterations)` is
computed, persisted and returned.  `store` is the contents of
`./config/iterations.json` (`none` when absent); the result carries the
returned value, the new store contents, and whether a measurement was
performed. -/
def get_optimal_iterations (measure : Nat → ℚ) (fuel : Nat)
    (target_time_ms : ℚ) (store : Option ℤ) :
    Option (ℤ × Option ℤ × Bool) :=
  match store with
  | some v => some (v, some v, false)
  | none =>
      match calibrateLoop measure fuel 1000 with
      | none => none
      | some (ti, elapsed) =>
          some (pyInt (target_time_ms / elapsed * ti),
                some (pyInt (target_time_ms / elapsed * ti)), true)

end SinkiBackups

namespace SinkiBackups

/-- C9: the claim says an unknown hash algorithm identifier fails with
an unsupported-algorithm error.  In the code the `ValueError` raised for
the unknown algorithm is swallowed by the blanket `except` handler,
whose own `hash_func.hexdigest()` then raises `UnboundLocalError`
(`hash_func` was never assigned): the operation fails, but not with the
unsupported-algorithm error. -/
theorem calculate_hash_unknown_algorithm_unbound_local :
    calculate_hash (fun _ => none) "a.txt" "no-such-algorithm"
        = .error .unboundLocalError ∧
    calculate_hash (fun _ => none) "a.txt" "no-such-algorithm"
        ≠ .error .valueError := by
  have h1 : calculate_hash (fun _ => none) "a.txt" "no-such-algorithm"
      = .error .unboundLocalError := rfl
  exact ⟨h1, by rw [h1]; simp⟩

/-- C10: with a supported algorithm and an unreadable file,
`calculate_hash` signals no error: it returns the digest of the bytes
read before the failure — for a missing file the digest of the empty
byte string, indistinguishable from the hash of a genuinely empty
file. -/
theorem calculate_hash_missing_file_empty_digest
    (fs : FileSys) (path alg : String)
    (halg : alg ∈ algorithms_available) (hmiss : fs path = none) :
    calculate_hash fs path alg = .ok (digestBytes alg []) ∧
    calculate_hash fs path alg
      = calculate_hash (fun _ => some ([], true)) path alg ∧
    ∀ (fs2 : FileSys) (bs : List Nat), fs2 path = some (bs, false) →
      calculate_hash fs2 path alg = .ok (digestBytes alg bs) := by
  refine ⟨?_, ?_, ?_⟩
  · simp [calculate_hash, calculate_hash_body, halg, hmiss, digestBytes,
      hexDigestOf]
  · simp [calculate_hash, calculate_hash_body, halg, hmiss, chunksBy,
      chunksByAux]
  · intro fs2 bs h2
    simp [calculate_hash, calculate_hash_body, halg, h2, digestBytes,
      hexDigestOf, foldl_hashUpdate_chunksBy]

/-- Witness for C10 at a concrete missing file and the `md5`
algorithm. -/
theorem calculate_hash_missing_file_empty_digest_witness :
    "md5" ∈ algorithms_available ∧
    calculate_hash (fun _ => none) "gone.bin" "md5"
      = .ok (digestBytes "md5" []) :=
  ⟨by decide,
   (calculate_hash_missing_file_empty_digest (fun _ => none) "gone.bin"
     "md5" (by decide) rfl).1⟩

/-- C7: a record is in the diff set computed by `compare_files` exactly
when it is a current record whose relative path is absent from the
manifest ("new") or present with a differing hash or size ("changed");
consequently, when every current record matches its manifest entry (an
unchanged tree), the diff set is empty. -/
theorem diff_files_characterization
    (manifest source : List FileRecord) :
    (∀ fi, fi ∈ diff_files manifest source ↔
      fi ∈ source ∧
        (manifestLookup manifest fi.RelativePath = none ∨
         ∃ mfi, manifestLookup manifest fi.RelativePath = some mfi ∧
           (mfi.Hash ≠ fi.Hash ∨ mfi.Length ≠ fi.Length))) ∧
    ((∀ fi ∈ source, ∃ mfi,
        manifestLookup manifest fi.RelativePath = some mfi ∧
        mfi.Hash = fi.Hash ∧ mfi.Length = fi.Length) →
      diff_files manifest source = []) := by
  constructor
  · intro fi
    rw [diff_files, List.mem_filter]
    constructor
    · rintro ⟨hs, hp⟩
      refine ⟨hs, ?_⟩
      cases hl : manifestLookup manifest fi.RelativePath with
      | none => exact Or.inl rfl
      | some mfi =>
        rw [hl] at hp
        simp only [Bool.or_eq_true, bne_iff_ne] at hp
        exact Or.inr ⟨mfi, rfl, hp⟩
    · rintro ⟨hs, hcond⟩
      refine ⟨hs, ?_⟩
      rcases hcond with hnone | ⟨mfi, hsome, hne⟩
      · rw [hnone]
      · rw [hsome]
        simp only [Bool.or_eq_true, bne_iff_ne]
        exact hne
  · intro hall
    rw [diff_files, List.filter_eq_nil_iff]
    intro fi hfi
    obtain ⟨mfi, hsome, hH, hL⟩ := hall fi hfi
    rw [hsome]
    simp [hH, hL]

/-- Witness for C7: a two-record manifest and a matching re-scan give an
empty diff set. -/
theorem diff_files_characterization_witness :
    (∀ fi ∈ [FileRecord.mk 11 "./a.txt" "m1" 3 "t1",
             FileRecord.mk 22 "./b/c.txt" "m2" 7 "t2"], ∃ mfi,
        manifestLookup
          [FileRecord.mk 11 "./a.txt" "m0" 3 "t0",
           FileRecord.mk 22 "./b/c.txt" "m0" 7 "t0"] fi.RelativePath
          = some mfi ∧
        mfi.Hash = fi.Hash ∧ mfi.Length = fi.Length) ∧
    diff_files
      [FileRecord.mk 11 "./a.txt" "m0" 3 "t0",
       FileRecord.mk 22 "./b/c.txt" "m0" 7 "t0"]
      [FileRecord.mk 11 "./a.txt" "m1" 3 "t1",
       FileRecord.mk 22 "./b/c.txt" "m2" 7 "t2"] = [] := by
  refine ⟨by decide, ?_⟩
  exact (diff_files_characterization
    [FileRecord.mk 11 "./a.txt" "m0" 3 "t0",
     FileRecord.mk 22 "./b/c.txt" "m0" 7 "t0"]
    [FileRecord.mk 11 "./a.txt" "m1" 3 "t1",
     FileRecord.mk 22 "./b/c.txt" "m2" 7 "t2"]).2 (by decide)

/-- C3 counterexample: with an existing manifest and a source holding
one new file, `compare_files` computes a non-empty diff set, yet no file
is run through the pipeline and the manifest is left unchanged — the
diff set is not processed. -/
theorem compare_files_job_diff_not_processed :
    (FileRecord.mk 20 "./new.txt" "m1" 4 "t1") ∈
      (compare_files_job true [FileRecord.mk 10 "./old.txt" "m0" 3 "t0"]
        [FileRecord.mk 20 "./new.txt" "m1" 4 "t1"]).1 ∧
    ¬ ((FileRecord.mk 20 "./new.txt" "m1" 4 "t1") ∈
      (compare_files_job true [FileRecord.mk 10 "./old.txt" "m0" 3 "t0"]
        [FileRecord.mk 20 "./new.txt" "m1" 4 "t1"]).2.1) ∧
    (compare_files_job true [FileRecord.mk 10 "./old.txt" "m0" 3 "t0"]
        [FileRecord.mk 20 "./new.txt" "m1" 4 "t1"]).2.2
      = [FileRecord.mk 10 "./old.txt" "m0" 3 "t0"] := by
  decide

/-- C2: the claim says that when all 4 copy attempts fail verification
the stage fails with an integrity error and the pipeline does not reach
compression.  Evaluating the code at such an input: the copy loop
exhausts its four attempts unverified, `copy_current_file` returns
normally (no error value exists in its result), and `add_backup` still
runs the compression stage. -/
theorem copy_exhausted_retries_still_reaches_compression :
    copy_current_file 0 (fun _ => 1) = ⟨4, false⟩ ∧
    (add_backup false 0 (fun _ => 1)).2 = some ⟨4, false⟩ ∧
    Stage.compress ∈ (add_backup false 0 (fun _ => 1)).1 := by
  decide

/-- C1 counterexample: a 200-byte compressible file is compressed, the
original plaintext copy is removed, and no post-compression
verification is performed — contradicting the claim that verification
runs for every compressed file regardless of size and that the original
is removed only after verification succeeds. -/
theorem compress_small_file_removes_without_verification :
    (compress_current_file "txt" 5 200 (fun _ => true) (fun _ => true)
        (fun _ => 5)).resultIsXz = true ∧
    (compress_current_file "txt" 5 200 (fun _ => true) (fun _ => true)
        (fun _ => 5)).originalRemoved = true ∧
    (compress_current_file "txt" 5 200 (fun _ => true) (fun _ => true)
        (fun _ => 5)).verificationPerformed = false := by
  decide

theorem compressLoop_invariant (file_hash file_length : Nat)
    (compressOk verifyOk : Nat → Bool) (decompressedHash : Nat → Nat) :
    ∀ (fuel attempt : Nat),
      (file_length ≤ GiB →
        (compressLoop file_hash file_length compressOk verifyOk
          decompressedHash fuel attempt false).verificationPerformed
            = false) ∧
      ∀ (performed : Bool),
        (file_length ≤ GiB →
          (compressLoop file_hash file_length compressOk verifyOk
            decompressedHash fuel attempt performed).resultIsXz = true →
          (compressLoop file_hash file_length compressOk verifyOk
            decompressedHash fuel attempt performed).originalRemoved
              = true) ∧
        (GiB < file_length →
          (compressLoop file_hash file_length compressOk verifyOk
            decompressedHash fuel attempt performed).originalRemoved
            = (compressLoop file_hash file_length compressOk verifyOk
                decompressedHash fuel attempt
                performed).verificationSucceeded) ∧
        (GiB < file_length →
          (compressLoop file_hash file_length compressOk verifyOk
            decompressedHash fuel attempt performed).originalRemoved
              = true →
          (compressLoop file_hash file_length compressOk verifyOk
            decompressedHash fuel attempt
            performed).verificationPerformed = true) := by
  intro fuel
  induction fuel with
  | zero =>
    intro attempt
    refine ⟨fun _ => rfl, fun performed => ⟨?_, fun _ => rfl, ?_⟩⟩
    · intro _ h; cases h
    · intro _ h; cases h
  | succ fuel ih =>
    intro attempt
    have ihA := ih (attempt + 1)
    constructor
    · intro hsmall
      have hnot : ¬ (GiB < file_length) := Nat.not_lt.mpr hsmall
      by_cases hc : compressOk attempt = true
      · simp [compressLoop, hc, hnot]
      · simp [compressLoop, hc, hnot, (ihA.1 hsmall)]
    · intro performed
      have hrec := ihA.2
      refine ⟨?_, ?_, ?_⟩
      · intro hsmall
        have hnot : ¬ (GiB < file_length) := Nat.not_lt.mpr hsmall
        by_cases hc : compressOk attempt = true
        · simp [compressLoop, hc, hnot]
        · simp only [compressLoop, hc, if_false, Bool.false_eq_true]
          exact (hrec performed).1 hsmall
      · intro hbig
        by_cases hc : compressOk attempt = true
        · by_cases hv : verifyOk attempt = true
          · by_cases hh : decompressedHash attempt = file_hash
            · simp [compressLoop, hc, hbig, hv, hh]
            · simp only [compressLoop, hc, hbig, hv, hh, if_true,
                if_false, Bool.false_eq_true]
              exact (hrec true).2.1 hbig
          · simp only [compressLoop, hc, hbig, hv, if_true, if_false,
              Bool.false_eq_true]
            exact (hrec performed).2.1 hbig
        · simp only [compressLoop, hc, if_false, Bool.false_eq_true]
          exact (hrec performed).2.1 hbig
      · intro hbig
        by_cases hc : compressOk attempt = true
        · by_cases hv : verifyOk attempt = true
          · by_cases hh : decompressedHash attempt = file_hash
            · simp [compressLoop, hc, hbig, hv, hh]
            · simp only [compressLoop, hc, hbig, hv, hh, if_true,
                if_false, Bool.false_eq_true]
              exact (hrec true).2.2 hbig
          · simp only [compressLoop, hc, hbig, hv, if_true, if_false,
              Bool.false_eq_true]
            exact (hrec performed).2.2 hbig
        · simp only [compressLoop, hc, if_false, Bool.false_eq_true]
          exact (hrec performed).2.2 hbig

/-- C1 (amended): post-compression verification is performed only for
files over 1 GiB; a compressed file of at most 1 GiB has its original
removed with no verification at all, while for files over 1 GiB the
original is removed exactly when the decompress-and-compare
verification succeeded. -/
theorem compress_verification_gated_by_size (file_ext : String)
    (file_hash file_length : Nat) (compressOk verifyOk : Nat → Bool)
    (decompressedHash : Nat → Nat) :
    (file_length ≤ GiB →
      (compress_current_file file_ext file_hash file_length compressOk
        verifyOk decompressedHash).verificationPerformed = false) ∧
    (file_length ≤ GiB →
      (compress_current_file file_ext file_hash file_length compressOk
        verifyOk decompressedHash).resultIsXz = true →
      (compress_current_file file_ext file_hash file_length compressOk
        verifyOk decompressedHash).originalRemoved = true) ∧
    (GiB < file_length →
      (compress_current_file file_ext file_hash file_length compressOk
        verifyOk decompressedHash).originalRemoved
        = (compress_current_file file_ext file_hash file_length
            compressOk verifyOk decompressedHash).verificationSucceeded
      ∧ ((compress_current_file file_ext file_hash file_length
            compressOk verifyOk decompressedHash).originalRemoved = true
          →
         (compress_current_file file_ext file_hash file_length
            compressOk verifyOk
            decompressedHash).verificationPerformed = true)) := by
  have hinv := compressLoop_invariant file_hash file_length compressOk
    verifyOk decompressedHash 4 0
  by_cases hcond : 120 ≤ file_length ∧
      (file_ext ∉ file_not_compress ∨ file_ext = ".")
  · refine ⟨?_, ?_, ?_⟩
    · intro hsmall
      simpa [compress_current_file, hcond] using hinv.1 hsmall
    · intro hsmall
      simpa [compress_current_file, hcond] using
        (hinv.2 false).1 hsmall
    · intro hbig
      constructor
      · simpa [compress_current_file, hcond] using
          (hinv.2 false).2.1 hbig
      · simpa [compress_current_file, hcond] using
          (hinv.2 false).2.2 hbig
  · refine ⟨?_, ?_, ?_⟩
    · intro _; simp [compress_current_file, hcond]
    · intro _ h
      simp [compress_current_file, hcond] at h
    · intro hbig
      refine ⟨by simp [compress_current_file, hcond], ?_⟩
      intro h
      simp [compress_current_file, hcond] at h

/-- Witness for the amended C1 at a small compressible file and at a
large one with a matching decompressed hash. -/
theorem compress_verification_gated_by_size_witness :
    (200 ≤ GiB ∧
      (compress_current_file "txt" 5 200 (fun _ => true)
        (fun _ => true) (fun _ => 5)).verificationPerformed = false) ∧
    (GiB < GiB + 1 ∧
      (compress_current_file "txt" 5 (GiB + 1) (fun _ => true)
          (fun _ => true) (fun _ => 5)).originalRemoved
        = (compress_current_file "txt" 5 (GiB + 1) (fun _ => true)
            (fun _ => true) (fun _ => 5)).verificationSucceeded) :=
  ⟨⟨by decide,
    (compress_verification_gated_by_size "txt" 5 200 (fun _ => true)
      (fun _ => true) (fun _ => 5)).1 (by decide)⟩,
   ⟨by decide,
    ((compress_verification_gated_by_size "txt" 5 (GiB + 1)
      (fun _ => true) (fun _ => true) (fun _ => 5)).2.2
        (by decide)).1⟩⟩

/-- C3 (amended): when a manifest exists, `compare_files` only computes
the diff set — no file is run through the pipeline and the manifest is
unchanged; only when no manifest exists does `initial_backup` run every
current file through the pipeline and append each record to the
manifest. -/
theorem compare_files_job_spec (manifest source : List FileRecord) :
    compare_files_job true manifest source
      = (diff_files manifest source, [], manifest) ∧
    compare_files_job false manifest source = ([], source, source) := by
  refine ⟨rfl, ?_⟩
  simp [compare_files_job, initial_backup_eq source []]

/-- C8: the Split Stage is a no-op at or below the 4 GiB threshold;
above it, the in-order concatenation of the chunks equals the original
bytes, every chunk except possibly the last is exactly 4 GiB, the
`.man` manifest lists the chunk names in order after a header line, and
the original artifact is deleted only after the chunk and manifest
writes: the delete is the final event of the trace and everything
before it is exactly those writes. -/
theorem split_current_file_spec (name : String) (content : List Nat) :
    (content.length ≤ splitThreshold →
      split_current_file name content = (name, [])) ∧
    (splitThreshold < content.length →
      (split_current_file name content).1 = name ++ ".man" ∧
      ((bysize name content splitThreshold).1).flatten = content ∧
      (∀ c ∈ ((bysize name content splitThreshold).1).dropLast,
          c.length = splitThreshold) ∧
      (bysize name content splitThreshold).2
        = "filename,filesize,header" ::
            (List.range
              (bysize name content splitThreshold).1.length).map
              (chunkName name) ∧
      (split_current_file name content).2.dropLast
        = chunkWriteEvents name 0 (bysize name content splitThreshold).1
            ++ [SplitEvent.writeManifest
                  (bysize name content splitThreshold).2] ∧
      (split_current_file name content).2.getLast?
        = some SplitEvent.deleteOriginal) := by
  have hthr : splitThreshold - 1 + 1 = splitThreshold := by decide
  constructor
  · intro hle
    simp [split_current_file, Nat.not_lt.mpr hle]
  · intro hgt
    have htrace : (split_current_file name content).2
        = (chunkWriteEvents name 0 (bysize name content splitThreshold).1
            ++ [SplitEvent.writeManifest
                  (bysize name content splitThreshold).2])
          ++ [SplitEvent.deleteOriginal] := by
      simp [split_current_file, hgt]
    refine ⟨?_, ?_, ?_, ?_, ?_, ?_⟩
    · simp [split_current_file, hgt]
    · simpa [bysize] using chunksBy_flatten (splitThreshold - 1) content
    · intro c hc
      simp only [bysize] at hc
      have := chunksBy_dropLast_length (splitThreshold - 1) content c hc
      rw [hthr] at this
      exact this
    · rfl
    · rw [htrace, List.dropLast_concat]
    · rw [htrace, List.getLast?_concat]

theorem list_set_ne (l : List Nat) (i b : Nat) (hi : i < l.length)
    (hb : b ≠ l.getD i 0) : l.set i b ≠ l := by
  intro h
  apply hb
  have h0 : (l.set i b).getD i 0 = l.getD i 0 := by rw [h]
  have h1 : (l.set i b).getD i 0 = b := by
    simp [List.getD_eq_getElem?_getD, List.getElem?_set_self hi]
  rw [← h0, h1]

/-- C4: round-trip identity of the Cipher Stage — decrypting the
envelope produced by the encrypt operation with the same password (and
any salt, nonce and iteration count) yields exactly the original
plaintext, written as the single output file. -/
theorem encrypt_decrypt_roundtrip (password : Nat) (p : List Nat)
    (salt nonce iterations : Nat) :
    decrypt_current_file password
        (encrypt_current_file password p salt nonce iterations)
      = (some p, [p]) := by
  simp [decrypt_current_file, encrypt_current_file, gcmEncryptDigest,
    gcmDecryptVerify, ctrCrypt_involution]

/-- C5: altering one byte of the `ciphertext` or of the `tag` field of
an envelope produced by the encrypt operation makes the decrypt
operation fail authentication: it returns no plaintext and writes no
output file. -/
theorem tampered_envelope_decrypt_fails (password : Nat) (p : List Nat)
    (salt nonce iterations : Nat) :
    (∀ i b,
      i < (encrypt_current_file password p salt nonce
            iterations).ciphertext.length →
      b ≠ (encrypt_current_file password p salt nonce
            iterations).ciphertext.getD i 0 →
      decrypt_current_file password
        { encrypt_current_file password p salt nonce iterations with
          ciphertext :=
            (encrypt_current_file password p salt nonce
              iterations).ciphertext.set i b }
        = (none, [])) ∧
    (∀ i b,
      i < (encrypt_current_file password p salt nonce
            iterations).tag.length →
      b ≠ (encrypt_current_file password p salt nonce
            iterations).tag.getD i 0 →
      decrypt_current_file password
        { encrypt_current_file password p salt nonce iterations with
          tag :=
            (encrypt_current_file password p salt nonce
              iterations).tag.set i b }
        = (none, [])) := by
  constructor
  · intro i b hi hb
    simp only [encrypt_current_file, gcmEncryptDigest] at hi hb ⊢
    have hne := list_set_ne _ i b hi hb
    have hcond :
        ¬ (gcmTag (pbkdf2_hmac password salt iterations) nonce
            headerBytes
            ((ctrCrypt (pbkdf2_hmac password salt iterations) nonce 0
              p).set i b)
          = gcmTag (pbkdf2_hmac password salt iterations) nonce
              headerBytes
              (ctrCrypt (pbkdf2_hmac password salt iterations) nonce 0
                p)) :=
      fun hc => hne (gcmTag_ct_injective _ _ _ _ _ hc)
    simp [decrypt_current_file, gcmDecryptVerify, hcond]
  · intro i b hi hb
    simp only [encrypt_current_file, gcmEncryptDigest] at hi hb ⊢
    have hne := list_set_ne _ i b hi hb
    have hcond :
        ¬ (gcmTag (pbkdf2_hmac password salt iterations) nonce
            headerBytes
            (ctrCrypt (pbkdf2_hmac password salt iterations) nonce 0 p)
          = (gcmTag (pbkdf2_hmac password salt iterations) nonce
              headerBytes
              (ctrCrypt (pbkdf2_hmac password salt iterations) nonce 0
                p)).set i b) :=
      fun hc => hne hc.symm
    simp [decrypt_current_file, gcmDecryptVerify, hcond]

set_option maxRecDepth 100000 in
/-- Witness for C5: a concrete envelope with the first ciphertext byte
(respectively the first tag byte) bumped fails to decrypt and writes
nothing. -/
theorem tampered_envelope_decrypt_fails_witness :
    (0 < (encrypt_current_file 1 [7] 2 3 4).ciphertext.length ∧
      (encrypt_current_file 1 [7] 2 3 4).ciphertext.getD 0 0 + 1
        ≠ (encrypt_current_file 1 [7] 2 3 4).ciphertext.getD 0 0 ∧
      decrypt_current_file 1
        { encrypt_current_file 1 [7] 2 3 4 with
          ciphertext :=
            (encrypt_current_file 1 [7] 2 3 4).ciphertext.set 0
              ((encrypt_current_file 1 [7] 2 3 4).ciphertext.getD 0 0
                + 1) }
        = (none, [])) ∧
    (0 < (encrypt_current_file 1 [7] 2 3 4).tag.length ∧
      (encrypt_current_file 1 [7] 2 3 4).tag.getD 0 0 + 1
        ≠ (encrypt_current_file 1 [7] 2 3 4).tag.getD 0 0 ∧
      decrypt_current_file 1
        { encrypt_current_file 1 [7] 2 3 4 with
          tag :=
            (encrypt_current_file 1 [7] 2 3 4).tag.set 0
              ((encrypt_current_file 1 [7] 2 3 4).tag.getD 0 0 + 1) }
        = (none, [])) :=
  ⟨⟨by decide, by decide,
    (tampered_envelope_decrypt_fails 1 [7] 2 3 4).1 0 _ (by decide)
      (by decide)⟩,
   ⟨by decide, by decide,
    (tampered_envelope_decrypt_fails 1 [7] 2 3 4).2 0 _ (by decide)
      (by decide)⟩⟩

/-- C6: whatever a completed first call to the Calibrator returns, the
calibration store afterwards holds exactly the returned value, and a
second call on that store returns the identical iterations value with
no re-measurement. -/
theorem calibrator_second_call_reuses (measure : Nat → ℚ) (fuel : Nat)
    (target : ℚ) (store : Option ℤ) (v : ℤ) (s : Option ℤ) (m : Bool)
    (h : get_optimal_iterations measure fuel target store
          = some (v, s, m)) :
    s = some v ∧
    get_optimal_iterations measure fuel target s
      = some (v, some v, false) := by
  match store with
  | some w =>
    simp only [get_optimal_iterations, Option.some.injEq, Prod.mk.injEq]
      at h
    obtain ⟨h1, h2, _⟩ := h
    subst h1; subst h2
    exact ⟨rfl, rfl⟩
  | none =>
    simp only [get_optimal_iterations] at h
    match hcal : calibrateLoop measure fuel 1000 with
    | none => rw [hcal] at h; cases h
    | some (ti, elapsed) =>
      rw [hcal] at h
      simp only [Option.some.injEq, Prod.mk.injEq] at h
      obtain ⟨h1, h2, _⟩ := h
      subst h1; subst h2
      exact ⟨rfl, rfl⟩

/-- Witness for C6: a calibrator whose measurement reads 5 ms for 1000
trial iterations persists 5000 iterations on the first call and reuses
it, without measuring, on the second. -/
theorem calibrator_second_call_reuses_witness :
    get_optimal_iterations (fun _ => 5) 1 25 none
        = some (5000, some 5000, true) ∧
    get_optimal_iterations (fun _ => 5) 1 25 (some 5000)
      = some (5000, some 5000, false) :=
  ⟨by norm_num [get_optimal_iterations, calibrateLoop, pyInt],
   (calibrator_second_call_reuses (fun _ => 5) 1 25 none 5000
      (some 5000) true
      (by norm_num [get_optimal_iterations, calibrateLoop, pyInt])).2⟩

/-- Witness for C8 at a small pass-through artifact and at an artifact
one byte over the threshold. -/
theorem split_current_file_spec_witness :
    ((List.replicate 5 0).length ≤ splitThreshold ∧
      split_current_file "small.xz" (List.replicate 5 0)
        = ("small.xz", [])) ∧
    (splitThreshold < (List.replicate (splitThreshold + 1) 0).length ∧
      ((bysize "big.xz" (List.replicate (splitThreshold + 1) 0)
          splitThreshold).1).flatten
        = List.replicate (splitThreshold + 1) 0) :=
  ⟨⟨by norm_num [splitThreshold],
    (split_current_file_spec "small.xz" (List.replicate 5 0)).1
      (by norm_num [splitThreshold])⟩,
   ⟨by simp,
    ((split_current_file_spec "big.xz"
        (List.replicate (splitThreshold + 1) 0)).2 (by simp)).2.1⟩⟩

end SinkiBackups
